import Mathlib

/-
  Verification of the chunk reassembler, transcript dispatcher, voice-activity
  estimator and amplitude visualizer of the ai-therapist client.

  Shallow embedding of:
    - src/hooks/useAgoraVideoClient.ts  (handleStreamMessage, handleTenMessage,
      base64ToUtf8, the volume-check interval)
    - src/hooks/useAudioVisualization.ts  (updateData)

  The platform functions TextDecoder("utf-8").decode and JSON.parse are external
  collaborators; their composition is abstracted as a parameter
  `parse : List Nat → Option TenMessage` (bytes in, structured record or failure
  out).  `atob` is the standard forgiving-base64 decoder and is embedded
  concretely.  JavaScript numbers that may be NaN (parseInt failures) are
  modelled as `Option Int` with `none` for NaN.
-/

namespace AiTherapist

/-- A TEN text-data chunk, as destructured in handleStreamMessage
(`message_id|part_index|total_parts|content`).  `part_index` and `total_parts`
are `none` when JavaScript `parseInt` would return NaN. -/
structure TextDataChunk where
  message_id : String
  part_index : Option Int
  total_parts : Option Int
  content : String
deriving Repr, DecidableEq

/-- The structured record produced by JSON.parse of a fully reassembled
payload (interface TenMessage in useAgoraVideoClient.ts). -/
structure TenMessage where
  stream_id : String
  is_final : Bool
  text : String
  text_ts : Int
  data_type : String
  role : Option String
deriving Repr, DecidableEq

/-- An entry of the transcript list (interface IMessageListItem). -/
structure IMessageListItem where
  turn_id : Nat
  uid : Nat
  text : String
  status : Nat
  timestamp : Int
deriving Repr, DecidableEq

/-- The dispatcher state: the monotonic turn counter (turnIdCounterRef), the
append-only finalized list (messageList) and the single in-progress slot
(currentInProgressMessage). -/
structure DispatchState where
  turnIdCounter : Nat
  messageList : List IMessageListItem
  currentInProgressMessage : Option IMessageListItem
deriving Repr, DecidableEq

/-- String.prototype.trim: strip leading and trailing whitespace.  The test
`!parsedMsg.text || parsedMsg.text.trim().length === 0` holds exactly when the
trimmed text is empty. -/
def strTrim (s : String) : String :=
  String.mk
    (((s.toList.dropWhile Char.isWhitespace).reverse.dropWhile
        Char.isWhitespace).reverse)

/-- handleTenMessage from useAgoraVideoClient.ts (lines 72-92): reject
empty/whitespace text, otherwise build a message carrying the next turn id;
final records are appended and clear the in-progress slot, non-final records
overwrite the in-progress slot. -/
def handleTenMessage (s : DispatchState) (m : TenMessage) : DispatchState :=
  if strTrim m.text = "" then s
  else
    let uid : Nat := if m.role = some "assistant" then 0 else 1
    let newMessage : IMessageListItem :=
      { turn_id := s.turnIdCounter, uid := uid, text := m.text,
        status := if m.is_final then 1 else 0, timestamp := m.text_ts }
    if m.is_final then
      { turnIdCounter := s.turnIdCounter + 1,
        messageList := s.messageList ++ [newMessage],
        currentInProgressMessage := none }
    else
      { turnIdCounter := s.turnIdCounter + 1,
        messageList := s.messageList,
        currentInProgressMessage := some newMessage }

/-- Value of a digit string, most significant first. -/
def jsDigitsVal (cs : List Char) : Nat :=
  cs.foldl (fun a c => a * 10 + (c.toNat - 48)) 0

/-- JavaScript parseInt(str, 10): skip leading whitespace, optional sign,
longest digit run; `none` models NaN (no digits). -/
def jsParseInt (str : String) : Option Int :=
  let cs := str.toList.dropWhile (fun c => c.isWhitespace)
  let signed : Int × List Char :=
    match cs with
    | '-' :: rest => (-1, rest)
    | '+' :: rest => (1, rest)
    | _ => (1, cs)
  let ds := signed.2.takeWhile (fun c => c.isDigit)
  if ds.isEmpty then none else some (signed.1 * (jsDigitsVal ds : Int))

/-- ASCII whitespace removed by forgiving-base64 decoding. -/
def isBase64Space (c : Char) : Bool :=
  c = ' ' || c = '\t' || c = '\n' || c = '\x0c' || c = '\r'

/-- Index of a character in the base64 alphabet, none for a character outside
the alphabet (this is what makes atob throw). -/
def base64Val (c : Char) : Option Nat :=
  if 'A' ≤ c ∧ c ≤ 'Z' then some (c.toNat - 65)
  else if 'a' ≤ c ∧ c ≤ 'z' then some (c.toNat - 97 + 26)
  else if '0' ≤ c ∧ c ≤ '9' then some (c.toNat - 48 + 52)
  else if c = '+' then some 62
  else if c = '/' then some 63
  else none

/-- Pack 6-bit values into bytes (4 sextets to 3 bytes, with the standard
2-to-1 and 3-to-2 tails); a single trailing sextet is invalid. -/
def sextetsToBytes : List Nat → Option (List Nat)
  | [] => some []
  | [_] => none
  | [a, b] => some [a * 4 + b / 16]
  | [a, b, c] => some [a * 4 + b / 16, b % 16 * 16 + c / 4]
  | a :: b :: c :: d :: rest =>
      (sextetsToBytes rest).map fun t =>
        (a * 4 + b / 16) :: (b % 16 * 16 + c / 4) :: (c % 4 * 64 + d) :: t

/-- Forgiving-base64 decode (the browser atob called by base64ToUtf8, producing
the byte sequence that the charCodeAt loop recovers): strip ASCII whitespace,
strip up to two trailing padding characters when the length is a multiple of
four, fail on length 1 mod 4 or any character outside the alphabet.  A "="
anywhere but the end is outside the alphabet, so atob fails on it. -/
def atobChars (cs0 : List Char) : Option (List Nat) :=
  let cs1 := cs0.filter (fun c => !(isBase64Space c))
  let cs :=
    if cs1.length % 4 = 0 then
      if cs1.reverse.take 2 = ['=', '='] then cs1.dropLast.dropLast
      else if cs1.reverse.take 1 = ['='] then cs1.dropLast
      else cs1
    else cs1
  if cs.length % 4 = 1 then none
  else (cs.mapM base64Val).bind sextetsToBytes

/-- atob on a string. -/
def atobBytes (s : String) : Option (List Nat) := atobChars s.toList

/-- An eviction scheduled by setTimeout in handleStreamMessage: the deadline
(first-chunk arrival time plus 5000 ms), the message id and the total_parts
value captured by the closure. -/
structure EvictionTimer where
  fireAt : Nat
  message_id : String
  total_parts : Option Int
deriving Repr, DecidableEq

/-- Reassembler state: the pending-message map messageCacheRef keyed by
message_id, plus the set of scheduled eviction timers. -/
structure ReassemblerState where
  cache : String → Option (List TextDataChunk)
  timers : List EvictionTimer

/-- State with an empty cache and no timers. -/
def emptyReassembler : ReassemblerState := ⟨fun _ => none, []⟩

/-- Point update of the pending-message map. -/
def updateCache (f : String → Option (List TextDataChunk)) (k : String)
    (v : Option (List TextDataChunk)) : String → Option (List TextDataChunk) :=
  fun k' => if k' = k then v else f k'

/-- Sort key used by the comparator (a, b) => a.part_index - b.part_index.
NaN part indices never occur in the sorted scenarios of the claims; getD 0 is
an arbitrary resolution for them. -/
def chunkKey (c : TextDataChunk) : Int := c.part_index.getD 0

/-- Comparator order for the in-place chunks.sort. -/
def chunkLE (a b : TextDataChunk) : Prop := chunkKey a ≤ chunkKey b

/-- Strict version of the comparator order. -/
def chunkLT (a b : TextDataChunk) : Prop := chunkKey a < chunkKey b

instance : DecidableRel chunkLE :=
  fun a b => inferInstanceAs (Decidable (chunkKey a ≤ chunkKey b))

instance : IsTotal TextDataChunk chunkLE := ⟨fun _ _ => Int.le_total _ _⟩

instance : IsTrans TextDataChunk chunkLE := ⟨fun _ _ _ h1 h2 => le_trans h1 h2⟩

instance : IsAntisymm TextDataChunk chunkLT :=
  ⟨fun _ _ h1 h2 => absurd (lt_trans h1 h2) (lt_irrefl _)⟩

/-- Stable sort by ascending part_index (chunks.sort((a, b) => a.part_index -
b.part_index)). -/
def sortChunks (l : List TextDataChunk) : List TextDataChunk :=
  List.insertionSort chunkLE l

/-- Sorted concatenation of the content fields of a chunk set. -/
def chunkContentJoin (l : List TextDataChunk) : String :=
  String.join ((sortChunks l).map (·.content))

/-- base64-decode the joined payload and hand the bytes to the abstracted
TextDecoder + JSON.parse; `none` is the caught decode/parse exception. -/
def decodeDispatch (parse : List Nat → Option TenMessage) (b64 : String) :
    Option TenMessage :=
  (atobBytes b64).bind parse

/-- Lines 110-141 of useAgoraVideoClient.ts, acting on an already destructured
chunk: create the pending entry and schedule eviction on first sight of the
message id, push the chunk, and on reaching total_parts arrivals sort,
concatenate, decode and deliver, then delete the entry (the delete happens
whether or not decoding succeeded). -/
def ingestChunk (parse : List Nat → Option TenMessage) (now : Nat)
    (s : ReassemblerState) (c : TextDataChunk) :
    ReassemblerState × Option TenMessage :=
  let created := (s.cache c.message_id).isNone
  let cache1 :=
    if created then updateCache s.cache c.message_id (some []) else s.cache
  let timers1 :=
    if created then
      s.timers ++ [⟨now + 5000, c.message_id, c.total_parts⟩]
    else s.timers
  let entry := (cache1 c.message_id).getD [] ++ [c]
  let cache2 := updateCache cache1 c.message_id (some entry)
  if c.total_parts = some (entry.length : Int) then
    let sorted := sortChunks entry
    let completeBase64 := String.join (sorted.map (·.content))
    (⟨updateCache cache2 c.message_id none, timers1⟩,
      decodeDispatch parse completeBase64)
  else
    (⟨cache2, timers1⟩, none)

/-- Split a character list at every pipe, accumulating the current field in
reverse. -/
def splitPipeAux : List Char → List Char → List String
  | acc, [] => [String.mk acc.reverse]
  | acc, c :: rest =>
      if c = '|' then String.mk acc.reverse :: splitPipeAux [] rest
      else splitPipeAux (c :: acc) rest

/-- JavaScript ascii.split("|"): split on every pipe character, keeping empty
fields, always producing at least one field. -/
def splitPipe (s : String) : List String := splitPipeAux [] s.toList

/-- Value of the total_parts field: the "???" sentinel maps to -1, otherwise
parseInt (none for NaN, including a missing field). -/
def totalPartsOf (field : Option String) : Option Int :=
  match field with
  | some t => if t = "???" then some (-1) else jsParseInt t
  | none => none

/-- handleStreamMessage (lines 94-145): split the ascii payload on "|",
parse part_index and total_parts (the "???" sentinel maps to -1 and is
rejected), then ingest the chunk. -/
def handleStreamMessage (parse : List Nat → Option TenMessage) (now : Nat)
    (s : ReassemblerState) (ascii : String) :
    ReassemblerState × Option TenMessage :=
  let fields := splitPipe ascii
  let message_id := fields.headD ""
  let part_index := (fields[1]?).bind jsParseInt
  let total_parts : Option Int := totalPartsOf fields[2]?
  if total_parts = some (-1 : Int) then (s, none)
  else
    ingestChunk parse now s
      { message_id := message_id, part_index := part_index,
        total_parts := total_parts, content := (fields[3]?).getD "" }

/-- The setTimeout callback of lines 115-120: delete the entry unless it is
present with exactly the captured number of parts. -/
def fireEvictionTimer (s : ReassemblerState) (t : EvictionTimer) :
    ReassemblerState :=
  let complete : Bool :=
    match s.cache t.message_id, t.total_parts with
    | some l, some n => (l.length : Int) == n
    | _, _ => false
  if complete then s else ⟨updateCache s.cache t.message_id none, s.timers⟩

/-- Ingest a list of chunks in order, collecting the per-chunk delivery
results. -/
def runChunks (parse : List Nat → Option TenMessage) (now : Nat) :
    ReassemblerState → List TextDataChunk →
    ReassemblerState × List (Option TenMessage)
  | s, [] => (s, [])
  | s, c :: rest =>
      let r1 := ingestChunk parse now s c
      let r2 := runChunks parse now r1.1 rest
      (r2.1, r1.2 :: r2.2)

/-- Ingest a list of raw ascii payloads in order. -/
def runRaw (parse : List Nat → Option TenMessage) (now : Nat) :
    ReassemblerState → List String →
    ReassemblerState × List (Option TenMessage)
  | s, [] => (s, [])
  | s, a :: rest =>
      let r1 := handleStreamMessage parse now s a
      let r2 := runRaw parse now r1.1 rest
      (r2.1, r1.2 :: r2.2)

/-- A parse collaborator that always fails, used for concrete evaluations (the
reassembler claims never depend on the parse outcome). -/
def parseNone : List Nat → Option TenMessage := fun _ => none

/-- State of the volume-check interval of useAgoraVideoClient.ts (lines
213-229): the sliding `volumes` window and the isAgentSpeaking flag. -/
structure VadState where
  volumes : List ℚ
  isAgentSpeaking : Bool
deriving Repr, DecidableEq

/-- Initial estimator state: empty window, listening. -/
def vadInit : VadState := ⟨[], false⟩

/-- The window after pushing a sample: volumes.push(v); if (volumes.length >
3) volumes.shift(). -/
def vadWindowNext (s : VadState) (v : ℚ) : List ℚ :=
  let w0 := s.volumes ++ [v]
  if w0.length > 3 then w0.drop 1 else w0

/-- One tick of the volume-check interval: push the sample, keep the last 3,
drop to listening when the window has at least 2 samples all exactly zero,
rise to speaking when the window has at least 2 samples and any positive
sample, otherwise hold. -/
def vadStep (s : VadState) (v : ℚ) : VadState :=
  let w := vadWindowNext s v
  let isAllZero := decide (2 ≤ w.length) && w.all (fun x => x == 0)
  let hasSound := decide (2 ≤ w.length) && w.any (fun x => decide (0 < x))
  let speaking :=
    if isAllZero && s.isAgentSpeaking then false
    else if hasSound && !s.isAgentSpeaking then true
    else s.isAgentSpeaking
  ⟨w, speaking⟩

/-- Run the estimator over a sample sequence. -/
def runVad (s : VadState) (vs : List ℚ) : VadState := vs.foldl vadStep s

/-- The configuration options of useAudioVisualization.ts with the defaults
threshold 0.15, barCount 24, amplification 4.0, volumeDecay 0.95, attackRate
0.3. -/
structure VizOptions where
  threshold : ℚ
  barCount : ℚ
  amplification : ℚ
  volumeDecay : ℚ
  attackRate : ℚ
deriving Repr, DecidableEq

/-- The default options of the hook. -/
def defaultVizOptions : VizOptions := ⟨15 / 100, 24, 4, 95 / 100, 3 / 10⟩

/-- The state carried across updateData ticks: smoothedVolumeRef and
currentLitCountRef. -/
structure VizState where
  smoothedVolume : ℚ
  currentLitCount : ℚ
deriving Repr, DecidableEq

/-- Initial visualizer state: both refs start at 0. -/
def vizInit : VizState := ⟨0, 0⟩

/-- Lines 122-131 of useAudioVisualization.ts: normalize the average volume
with amplification clamped at 1, zero below the threshold, rescale
[threshold, 1] to [0, 1] above it. -/
def rawVolumeOf (o : VizOptions) (averageVolume : ℚ) : ℚ :=
  let r := min 1 (averageVolume / 255 * o.amplification)
  if r < o.threshold then 0 else (r - o.threshold) / (1 - o.threshold)

/-- Lines 133-139: instant attack, multiplicative slow decay of the smoothed
volume. -/
def smoothedVolumeNext (o : VizOptions) (s : VizState) (av : ℚ) : ℚ :=
  let raw := rawVolumeOf o av
  if raw > s.smoothedVolume then raw else s.smoothedVolume * o.volumeDecay

/-- Line 142: the real-valued target lit-bar count of a tick. -/
def targetLitCount (o : VizOptions) (s : VizState) (av : ℚ) : ℚ :=
  smoothedVolumeNext o s av * o.barCount

/-- One updateData tick (lines 109-159) on the carried state, fed with the
tick's average volume: smooth the volume, derive the target lit count, then
smooth the lit count itself (interpolated attack, multiplicative decay). -/
def vizStep (o : VizOptions) (s : VizState) (av : ℚ) : VizState :=
  let target := targetLitCount o s av
  let newLitCount :=
    if target > s.currentLitCount then
      s.currentLitCount + (target - s.currentLitCount) * o.attackRate
    else
      s.currentLitCount * o.volumeDecay
  ⟨smoothedVolumeNext o s av, newLitCount⟩

/-- Run the visualizer over a sequence of average volumes. -/
def runViz (o : VizOptions) (s : VizState) (avs : List ℚ) : VizState :=
  avs.foldl (vizStep o) s

theorem updateCache_self (f : String → Option (List TextDataChunk)) (k : String)
    (v : Option (List TextDataChunk)) : updateCache f k v k = v := by
  simp [updateCache]

theorem runChunks_cons (parse : List Nat → Option TenMessage) (now : Nat)
    (s : ReassemblerState) (c : TextDataChunk) (rest : List TextDataChunk) :
    runChunks parse now s (c :: rest) =
      ((runChunks parse now (ingestChunk parse now s c).1 rest).1,
        (ingestChunk parse now s c).2 ::
          (runChunks parse now (ingestChunk parse now s c).1 rest).2) := rfl

/-- Ingesting a chunk that does not reach its declared total pushes it onto
the (possibly freshly created) pending entry and delivers nothing. -/
theorem ingestChunk_push (parse : List Nat → Option TenMessage) (now : Nat)
    (s : ReassemblerState) (c : TextDataChunk)
    (hne : c.total_parts ≠
      some ((((s.cache c.message_id).getD []).length + 1 : Nat) : Int)) :
    (ingestChunk parse now s c).2 = none ∧
    ((ingestChunk parse now s c).1).cache c.message_id =
      some ((s.cache c.message_id).getD [] ++ [c]) := by
  unfold ingestChunk
  cases hc : s.cache c.message_id with
  | none =>
      rw [hc] at hne
      have hne' : c.total_parts ≠ some 1 := by simpa using hne
      simp [hc, updateCache, hne']
  | some l =>
      rw [hc] at hne
      have hne' : c.total_parts ≠ some ((l.length : Int) + 1) := by
        push_cast at hne
        simpa using hne
      simp [hc, updateCache, hne']

/-- Ingesting the chunk that reaches its declared total sorts the collected
set, concatenates, decodes and delivers the result, and always deletes the
pending entry. -/
theorem ingestChunk_complete (parse : List Nat → Option TenMessage) (now : Nat)
    (s : ReassemblerState) (c : TextDataChunk)
    (heq : c.total_parts =
      some ((((s.cache c.message_id).getD []).length + 1 : Nat) : Int)) :
    (ingestChunk parse now s c).2 =
      decodeDispatch parse
        (chunkContentJoin ((s.cache c.message_id).getD [] ++ [c])) ∧
    ((ingestChunk parse now s c).1).cache c.message_id = none := by
  unfold ingestChunk
  cases hc : s.cache c.message_id with
  | none =>
      rw [hc] at heq
      have heq' : c.total_parts = some 1 := by simpa using heq
      simp [hc, updateCache, heq', chunkContentJoin]
  | some l =>
      rw [hc] at heq
      have heq' : c.total_parts = some ((l.length : Int) + 1) := by
        push_cast at heq
        simpa using heq
      simp [hc, updateCache, heq', chunkContentJoin]

/-- Whenever the message id is unseen, ingestion schedules an eviction timer
with deadline now + 5000 capturing the chunk's declared total. -/
theorem ingestChunk_timer (parse : List Nat → Option TenMessage) (now : Nat)
    (s : ReassemblerState) (c : TextDataChunk)
    (hc : s.cache c.message_id = none) :
    ((ingestChunk parse now s c).1).timers =
      s.timers ++ [⟨now + 5000, c.message_id, c.total_parts⟩] := by
  unfold ingestChunk
  simp only [hc, Option.isNone_none, if_true]
  split <;> rfl

/-- A pairwise-nonstrictly-sorted list whose keys are pairwise distinct is
pairwise strictly sorted. -/
theorem pairwise_chunkLT_of_le_ne :
    ∀ l : List TextDataChunk, l.Pairwise chunkLE →
      l.Pairwise (fun a b => chunkKey a ≠ chunkKey b) → l.Pairwise chunkLT := by
  intro l
  induction l with
  | nil => intro _ _; exact List.Pairwise.nil
  | cons a l ih =>
      intro hle hne
      rcases List.pairwise_cons.mp hle with ⟨h1, h2⟩
      rcases List.pairwise_cons.mp hne with ⟨h3, h4⟩
      exact List.pairwise_cons.mpr
        ⟨fun b hb => lt_of_le_of_ne (h1 b hb) (h3 b hb), ih h2 h4⟩

/-- Sorting by part_index is invariant under permutation of the input as soon
as the part indices are pairwise distinct: the comparator determines a unique
sorted arrangement. -/
theorem sortChunks_eq_of_perm (l₁ l₂ : List TextDataChunk)
    (hp : l₁.Perm l₂) (hk : (l₂.map chunkKey).Nodup) :
    sortChunks l₁ = sortChunks l₂ := by
  have p1 : (sortChunks l₁).Perm l₁ := List.perm_insertionSort _ _
  have p2 : (sortChunks l₂).Perm l₂ := List.perm_insertionSort _ _
  have p12 : (sortChunks l₁).Perm (sortChunks l₂) := (p1.trans hp).trans p2.symm
  have s1 : List.Sorted chunkLE (sortChunks l₁) := List.sorted_insertionSort _ _
  have s2 : List.Sorted chunkLE (sortChunks l₂) := List.sorted_insertionSort _ _
  have hk1 : ((sortChunks l₁).map chunkKey).Nodup :=
    (((p1.trans hp).map chunkKey).nodup_iff).mpr hk
  have hk2 : ((sortChunks l₂).map chunkKey).Nodup :=
    ((p2.map chunkKey).nodup_iff).mpr hk
  have st1 : List.Sorted chunkLT (sortChunks l₁) :=
    pairwise_chunkLT_of_le_ne _ s1 (List.pairwise_map.mp hk1)
  have st2 : List.Sorted chunkLT (sortChunks l₂) :=
    pairwise_chunkLT_of_le_ne _ s2 (List.pairwise_map.mp hk2)
  exact List.eq_of_perm_of_sorted p12 st1 st2

/-- Core run lemma: feeding a nonempty suffix that (together with the already
collected chunks) forms a complete, distinct-indexed chunk set produces no
output until the last chunk, then the canonical decoded record, and leaves no
entry behind. -/
theorem runChunks_complete (parse : List Nat → Option TenMessage) (now : Nat)
    (mid : String) (n : Nat) (cs : List TextDataChunk)
    (hkeys : (cs.map chunkKey).Nodup) :
    ∀ (rest : List TextDataChunk), ∀ (s : ReassemblerState),
      (∀ c ∈ rest, c.message_id = mid) →
      (∀ c ∈ rest, c.total_parts = some (n : Int)) →
      rest ≠ [] →
      ((s.cache mid).getD []).length + rest.length = n →
      ((s.cache mid).getD [] ++ rest).Perm cs →
      (runChunks parse now s rest).2 =
        List.replicate (rest.length - 1) none ++
          [decodeDispatch parse (chunkContentJoin cs)] ∧
      ((runChunks parse now s rest).1).cache mid = none := by
  intro rest
  induction rest with
  | nil => intro s _ _ hne _ _; exact absurd rfl hne
  | cons c rest ih =>
      intro s hmid htot _ hlen hperm
      have hcm : c.message_id = mid := hmid c (List.mem_cons_self c rest)
      cases rest with
      | nil =>
          have heq : c.total_parts =
              some ((((s.cache c.message_id).getD []).length + 1 : Nat) : Int) := by
            rw [htot c (List.mem_cons_self c []), hcm]
            congr 1
            exact_mod_cast (by simpa using hlen.symm)
          obtain ⟨ho, hs⟩ := ingestChunk_complete parse now s c heq
          rw [hcm] at ho hs
          have hjoin :
              chunkContentJoin ((s.cache mid).getD [] ++ [c]) =
                chunkContentJoin cs := by
            unfold chunkContentJoin
            rw [sortChunks_eq_of_perm _ cs hperm hkeys]
          simp only [runChunks]
          constructor
          · simp only [List.length_cons, List.length_nil]
            rw [ho, hjoin]
            rfl
          · exact hs
      | cons c2 rest2 =>
          have hlt : ((s.cache mid).getD []).length + 1 < n := by
            simp only [List.length_cons] at hlen
            omega
          have hne : c.total_parts ≠
              some ((((s.cache c.message_id).getD []).length + 1 : Nat) : Int) := by
            rw [htot c (List.mem_cons_self c _), hcm]
            intro h
            have h2 : (n : Int) = (((s.cache mid).getD []).length + 1 : Nat) :=
              Option.some.inj h
            have h3 : n = ((s.cache mid).getD []).length + 1 := by
              exact_mod_cast h2
            omega
          obtain ⟨ho, hs⟩ := ingestChunk_push parse now s c hne
          rw [hcm] at hs
          have ihres :=
            ih ((ingestChunk parse now s c).1)
              (fun d hd => hmid d (List.mem_cons_of_mem c hd))
              (fun d hd => htot d (List.mem_cons_of_mem c hd))
              (by simp)
              (by
                rw [hs]
                simp only [Option.getD_some, List.length_append,
                  List.length_cons, List.length_nil]
                simp only [List.length_cons] at hlen
                omega)
              (by
                rw [hs]
                simp only [Option.getD_some]
                rw [List.append_assoc]
                simpa using hperm)
          constructor
          · rw [runChunks_cons, ho, ihres.1]
            simp [List.replicate_succ]
          · rw [runChunks_cons]
            exact ihres.2

theorem runRaw_cons (parse : List Nat → Option TenMessage) (now : Nat)
    (s : ReassemblerState) (a : String) (rest : List String) :
    runRaw parse now s (a :: rest) =
      ((runRaw parse now (handleStreamMessage parse now s a).1 rest).1,
        (handleStreamMessage parse now s a).2 ::
          (runRaw parse now (handleStreamMessage parse now s a).1 rest).2) := rfl

/-- When each raw payload destructures to the corresponding chunk, running the
raw handler is running the chunk ingester. -/
theorem runRaw_eq_runChunks (parse : List Nat → Option TenMessage) (now : Nat) :
    ∀ (raws : List String) (chunks : List TextDataChunk),
      List.Forall₂
        (fun a c => ∀ s' : ReassemblerState,
          handleStreamMessage parse now s' a = ingestChunk parse now s' c)
        raws chunks →
      ∀ s : ReassemblerState,
        runRaw parse now s raws = runChunks parse now s chunks := by
  intro raws chunks h
  induction h with
  | nil => intro s; rfl
  | cons h1 _ ih =>
      intro s
      rw [runRaw_cons, runChunks_cons, h1 s, ih]

/-- C1: for every complete chunk set for one message_id (n chunks, each
declaring total_parts = n, pairwise-distinct part indices), ingesting the
chunks in any permutation of arrival order produces no output until the n-th
chunk, then exactly the record obtained by sorting the set by ascending
part_index, concatenating the content fields in that order and decoding and
parsing the concatenation; afterwards the pending entry is gone.  The result
only mentions the canonical set cs, so it is independent of the arrival
order cs'. -/
theorem C1_order_independence (parse : List Nat → Option TenMessage)
    (now : Nat) (s : ReassemblerState) (mid : String) (n : Nat)
    (cs cs' : List TextDataChunk)
    (hmid : ∀ c ∈ cs, c.message_id = mid)
    (htot : ∀ c ∈ cs, c.total_parts = some (n : Int))
    (hlen : cs.length = n) (hn : 0 < n)
    (hkeys : (cs.map chunkKey).Nodup)
    (hperm : cs'.Perm cs)
    (hcache : s.cache mid = none) :
    (runChunks parse now s cs').2 =
      List.replicate (n - 1) none ++
        [decodeDispatch parse (chunkContentJoin cs)] ∧
    ((runChunks parse now s cs').1).cache mid = none := by
  have hlen' : cs'.length = n := by rw [hperm.length_eq, hlen]
  have hres :=
    runChunks_complete parse now mid n cs hkeys cs' s
      (fun c hc => hmid c (hperm.mem_iff.mp hc))
      (fun c hc => htot c (hperm.mem_iff.mp hc))
      (by
        intro h
        rw [h] at hlen'
        simp at hlen'
        omega)
      (by simp [hcache, hlen'])
      (by simpa [hcache] using hperm)
  rw [hlen'] at hres
  exact hres

def w1ChunkA : TextDataChunk := ⟨"w", some 0, some 2, "QQ"⟩

def w1ChunkB : TextDataChunk := ⟨"w", some 1, some 2, "Qg"⟩

theorem C1_witness :
    (runChunks parseNone 0 emptyReassembler [w1ChunkB, w1ChunkA]).2 =
      List.replicate (2 - 1) none ++
        [decodeDispatch parseNone (chunkContentJoin [w1ChunkA, w1ChunkB])] ∧
    ((runChunks parseNone 0 emptyReassembler [w1ChunkB, w1ChunkA]).1).cache "w" =
      none :=
  C1_order_independence parseNone 0 emptyReassembler "w" 2
    [w1ChunkA, w1ChunkB] [w1ChunkB, w1ChunkA]
    (by decide) (by decide) (by decide) (by decide) (by decide) (by decide) rfl

/-- C9: a chunk whose total_parts field is the "???" sentinel is dropped on
arrival: the handler returns with the state exactly unchanged and no
output, so the chunk is never buffered and never contributes to any
reassembled message. -/
theorem C9_unknown_drop (parse : List Nat → Option TenMessage) (now : Nat)
    (s : ReassemblerState) (ascii : String)
    (h : (splitPipe ascii)[2]? = some "???") :
    handleStreamMessage parse now s ascii = (s, none) := by
  unfold handleStreamMessage totalPartsOf
  simp [h]

theorem C9_witness :
    handleStreamMessage parseNone 0 emptyReassembler "m|0|???|x" =
      (emptyReassembler, none) :=
  C9_unknown_drop parseNone 0 emptyReassembler "m|0|???|x" rfl

/-- C4: (1) the first chunk of an unseen message_id schedules an eviction
timer at now + 5000 capturing the declared total; (2) firing that timer while
the entry holds a number of chunks different from the captured total removes
the entry from the pending map; (3) a chunk arriving after the eviction (the
id is unseen again) starts a fresh, independent pending entry holding only
that chunk. -/
theorem C4_timeout_eviction :
    (∀ (parse : List Nat → Option TenMessage) (now : Nat)
        (s : ReassemblerState) (c : TextDataChunk),
        s.cache c.message_id = none →
        ((ingestChunk parse now s c).1).timers =
          s.timers ++ [⟨now + 5000, c.message_id, c.total_parts⟩]) ∧
    (∀ (s : ReassemblerState) (t : EvictionTimer)
        (l : List TextDataChunk) (n : Int),
        s.cache t.message_id = some l → t.total_parts = some n →
        (l.length : Int) ≠ n →
        (fireEvictionTimer s t).cache t.message_id = none) ∧
    (∀ (parse : List Nat → Option TenMessage) (now' : Nat)
        (s : ReassemblerState) (c : TextDataChunk),
        s.cache c.message_id = none → c.total_parts ≠ some 1 →
        ((ingestChunk parse now' s c).1).cache c.message_id = some [c] ∧
        ((ingestChunk parse now' s c).1).timers =
          s.timers ++ [⟨now' + 5000, c.message_id, c.total_parts⟩]) := by
  refine ⟨?_, ?_, ?_⟩
  · intro parse now s c hc
    exact ingestChunk_timer parse now s c hc
  · intro s t l n hl ht hne
    unfold fireEvictionTimer
    simp only [hl, ht]
    have : ((l.length : Int) == n) = false := by simpa using hne
    simp [this, updateCache_self]
  · intro parse now' s c hc h1
    have hne : c.total_parts ≠
        some ((((s.cache c.message_id).getD []).length + 1 : Nat) : Int) := by
      simpa [hc] using h1
    obtain ⟨_, hs⟩ := ingestChunk_push parse now' s c hne
    refine ⟨by simpa [hc] using hs, ingestChunk_timer parse now' s c hc⟩

def c4EntryState : ReassemblerState :=
  ⟨updateCache (fun _ => none) "m" (some [⟨"m", some 0, some 3, "x"⟩]), []⟩

theorem C4_witness :
    ((ingestChunk parseNone 0 emptyReassembler ⟨"m", some 0, some 3, "x"⟩).1).timers =
      emptyReassembler.timers ++ [⟨0 + 5000, "m", some 3⟩] ∧
    (fireEvictionTimer c4EntryState ⟨5000, "m", some 3⟩).cache "m" = none ∧
    ((ingestChunk parseNone 6000 emptyReassembler ⟨"m", some 0, some 3, "x"⟩).1).cache "m" =
      some [⟨"m", some 0, some 3, "x"⟩] :=
  ⟨C4_timeout_eviction.1 parseNone 0 emptyReassembler ⟨"m", some 0, some 3, "x"⟩ rfl,
    C4_timeout_eviction.2.1 c4EntryState ⟨5000, "m", some 3⟩
      [⟨"m", some 0, some 3, "x"⟩] 3 (by simp [c4EntryState, updateCache]) rfl
      (by decide),
    (C4_timeout_eviction.2.2 parseNone 6000 emptyReassembler
      ⟨"m", some 0, some 3, "x"⟩ rfl (by decide)).1⟩

/-- C5 counterexample: after message id "m" has been completed (reassembled
and its entry deleted), a further chunk for "m" is NOT ignored: it creates a
fresh pending buffer holding the new chunk, so the reassembler state changes.
This refutes the claim that such chunks leave the state unchanged and create
no pending buffer. -/
theorem C5_counterexample :
    ((handleStreamMessage parseNone 0 emptyReassembler "m|0|1|QQ").1).cache "m" =
      none ∧
    ((handleStreamMessage parseNone 6000
        (handleStreamMessage parseNone 0 emptyReassembler "m|0|1|QQ").1
        "m|0|2|RR").1).cache "m" =
      some [⟨"m", some 0, some 2, "RR"⟩] :=
  ⟨rfl, rfl⟩

/-- C5 (amended): a chunk whose message_id refers to an already-completed or
already-evicted message (so the pending map has no entry for it) is processed
like the first chunk of a brand-new message: it starts a fresh pending entry
containing only that chunk, schedules a new eviction timer, and delivers
nothing immediately (provided it does not declare total_parts = 1, in which
case it completes on its own as a new single-chunk message).  It never
contributes to the previously completed or evicted message. -/
theorem C5_amended (parse : List Nat → Option TenMessage) (now : Nat)
    (s : ReassemblerState) (c : TextDataChunk)
    (h : s.cache c.message_id = none) (h1 : c.total_parts ≠ some 1) :
    ((ingestChunk parse now s c).1).cache c.message_id = some [c] ∧
    (ingestChunk parse now s c).2 = none ∧
    ((ingestChunk parse now s c).1).timers =
      s.timers ++ [⟨now + 5000, c.message_id, c.total_parts⟩] := by
  have hne : c.total_parts ≠
      some ((((s.cache c.message_id).getD []).length + 1 : Nat) : Int) := by
    simpa [h] using h1
  obtain ⟨ho, hs⟩ := ingestChunk_push parse now s c hne
  exact ⟨by simpa [h] using hs, ho, ingestChunk_timer parse now s c h⟩

theorem C5_witness :
    ((ingestChunk parseNone 6000 emptyReassembler ⟨"m", some 0, some 2, "RR"⟩).1).cache "m" =
      some [⟨"m", some 0, some 2, "RR"⟩] ∧
    (ingestChunk parseNone 6000 emptyReassembler ⟨"m", some 0, some 2, "RR"⟩).2 =
      none ∧
    ((ingestChunk parseNone 6000 emptyReassembler ⟨"m", some 0, some 2, "RR"⟩).1).timers =
      emptyReassembler.timers ++ [⟨6000 + 5000, "m", some 2⟩] :=
  C5_amended parseNone 6000 emptyReassembler ⟨"m", some 0, some 2, "RR"⟩ rfl
    (by decide)

/-- C10: the stream-message handler is a total function (every byte payload,
however malformed, yields a well-defined successor state and optional output
rather than an escaping exception), and whenever an arriving chunk completes
its declared total, the pending entry is removed from the cache no matter
whether the subsequent decode/parse succeeds (the statement holds for every
parse collaborator, including the always-failing one), so a failed message
leaves no residual buffered state. -/
theorem C10_no_residual_state :
    (∀ (parse : List Nat → Option TenMessage) (now : Nat)
        (s : ReassemblerState) (ascii : String),
        ∃ s' out, handleStreamMessage parse now s ascii = (s', out)) ∧
    (∀ (parse : List Nat → Option TenMessage) (now : Nat)
        (s : ReassemblerState) (c : TextDataChunk),
        c.total_parts =
          some ((((s.cache c.message_id).getD []).length + 1 : Nat) : Int) →
        ((ingestChunk parse now s c).1).cache c.message_id = none) :=
  ⟨fun parse now s ascii =>
    ⟨(handleStreamMessage parse now s ascii).1,
      (handleStreamMessage parse now s ascii).2, rfl⟩,
    fun parse now s c h => (ingestChunk_complete parse now s c h).2⟩

theorem C10_witness :
    (∃ s' out,
      handleStreamMessage parseNone 0 emptyReassembler "garbage-no-pipes" =
        (s', out)) ∧
    ((ingestChunk parseNone 0 emptyReassembler ⟨"m", none, some 1, "!!!"⟩).1).cache "m" =
      none :=
  ⟨C10_no_residual_state.1 parseNone 0 emptyReassembler "garbage-no-pipes",
    C10_no_residual_state.2 parseNone 0 emptyReassembler
      ⟨"m", none, some 1, "!!!"⟩ (by decide)⟩

def c3Raw0 : String := "m1|0|3|SGVsbG8s"

def c3Raw1 : String := "m1|1|3|Qg=="

def c3Raw2 : String := "m1|2|3|d29ybGQh"

def c3Chunk0 : TextDataChunk := ⟨"m1", some 0, some 3, "SGVsbG8s"⟩

def c3Chunk1 : TextDataChunk := ⟨"m1", some 1, some 3, "Qg=="⟩

def c3Chunk2 : TextDataChunk := ⟨"m1", some 2, some 3, "d29ybGQh"⟩

theorem c3Link0 (parse : List Nat → Option TenMessage) (now : Nat) :
    ∀ s : ReassemblerState,
      handleStreamMessage parse now s c3Raw0 = ingestChunk parse now s c3Chunk0 :=
  fun _ => rfl

theorem c3Link1 (parse : List Nat → Option TenMessage) (now : Nat) :
    ∀ s : ReassemblerState,
      handleStreamMessage parse now s c3Raw1 = ingestChunk parse now s c3Chunk1 :=
  fun _ => rfl

theorem c3Link2 (parse : List Nat → Option TenMessage) (now : Nat) :
    ∀ s : ReassemblerState,
      handleStreamMessage parse now s c3Raw2 = ingestChunk parse now s c3Chunk2 :=
  fun _ => rfl

/-- Outcome of one arrival order of the three-chunk scenario: no record is
ever delivered (the decode of the sorted concatenation fails) and the pending
entry is removed. -/
theorem c3Case (parse : List Nat → Option TenMessage)
    (raws : List String) (chunks : List TextDataChunk)
    (hlink : List.Forall₂
      (fun a c => ∀ s' : ReassemblerState,
        handleStreamMessage parse 0 s' a = ingestChunk parse 0 s' c)
      raws chunks)
    (hmid : ∀ c ∈ chunks, c.message_id = "m1")
    (htot : ∀ c ∈ chunks, c.total_parts = some ((3 : Nat) : Int))
    (hne : chunks ≠ [])
    (hlen : chunks.length = 3)
    (hkeys : (chunks.map chunkKey).Nodup)
    (hjoin : decodeDispatch parse (chunkContentJoin chunks) = none) :
    (runRaw parse 0 emptyReassembler raws).2 = [none, none, none] ∧
    ((runRaw parse 0 emptyReassembler raws).1).cache "m1" = none := by
  rw [runRaw_eq_runChunks parse 0 raws chunks hlink emptyReassembler]
  have hres :=
    runChunks_complete parse 0 "m1" 3 chunks hkeys chunks emptyReassembler
      hmid htot hne (by simp [emptyReassembler, hlen])
      (by simp [emptyReassembler])
  refine ⟨?_, hres.2⟩
  rw [hres.1, hjoin, hlen]
  rfl

/-- C3 counterexample: in the concrete three-chunk scenario the sorted
concatenation is "SGVsbG8sQg==d29ybGQh", whose base64 decode fails (padding
characters occur mid-string), so after all three chunks arrive no transcript
record at all is produced — not "exactly one" as the claim states. -/
theorem C3_counterexample :
    atobBytes (chunkContentJoin [c3Chunk1, c3Chunk0, c3Chunk2]) = none ∧
    (runRaw parseNone 0 emptyReassembler [c3Raw1, c3Raw0, c3Raw2]).2 =
      [none, none, none] :=
  ⟨rfl, rfl⟩

/-- C3 (amended): for the three chunks of message "m1" with total_parts 3 and
contents "Qg==", "SGVsbG8s", "d29ybGQh" at part indices 1, 0, 2, the
reassembler does sort the parts to index order [0, 1, 2] and concatenate with
part 0 first, producing "SGVsbG8sQg==d29ybGQh"; but that concatenation is not
valid base64 (padding mid-string), the decode fails, and zero transcript
records are produced; this outcome — no record, entry removed — is the same
for every one of the six arrival orders and every parse collaborator. -/
theorem C3_amended (parse : List Nat → Option TenMessage) :
    sortChunks [c3Chunk1, c3Chunk0, c3Chunk2] =
      [c3Chunk0, c3Chunk1, c3Chunk2] ∧
    chunkContentJoin [c3Chunk1, c3Chunk0, c3Chunk2] = "SGVsbG8sQg==d29ybGQh" ∧
    atobBytes "SGVsbG8sQg==d29ybGQh" = none ∧
    (∀ raws ∈ [[c3Raw0, c3Raw1, c3Raw2], [c3Raw0, c3Raw2, c3Raw1],
        [c3Raw1, c3Raw0, c3Raw2], [c3Raw1, c3Raw2, c3Raw0],
        [c3Raw2, c3Raw0, c3Raw1], [c3Raw2, c3Raw1, c3Raw0]],
      (runRaw parse 0 emptyReassembler raws).2 = [none, none, none] ∧
      ((runRaw parse 0 emptyReassembler raws).1).cache "m1" = none) := by
  refine ⟨rfl, rfl, rfl, ?_⟩
  intro raws h
  fin_cases h
  · exact c3Case parse _ [c3Chunk0, c3Chunk1, c3Chunk2]
      (.cons (c3Link0 parse 0) (.cons (c3Link1 parse 0)
        (.cons (c3Link2 parse 0) .nil)))
      (by decide) (by decide) (by decide) (by decide) (by decide) rfl
  · exact c3Case parse _ [c3Chunk0, c3Chunk2, c3Chunk1]
      (.cons (c3Link0 parse 0) (.cons (c3Link2 parse 0)
        (.cons (c3Link1 parse 0) .nil)))
      (by decide) (by decide) (by decide) (by decide) (by decide) rfl
  · exact c3Case parse _ [c3Chunk1, c3Chunk0, c3Chunk2]
      (.cons (c3Link1 parse 0) (.cons (c3Link0 parse 0)
        (.cons (c3Link2 parse 0) .nil)))
      (by decide) (by decide) (by decide) (by decide) (by decide) rfl
  · exact c3Case parse _ [c3Chunk1, c3Chunk2, c3Chunk0]
      (.cons (c3Link1 parse 0) (.cons (c3Link2 parse 0)
        (.cons (c3Link0 parse 0) .nil)))
      (by decide) (by decide) (by decide) (by decide) (by decide) rfl
  · exact c3Case parse _ [c3Chunk2, c3Chunk0, c3Chunk1]
      (.cons (c3Link2 parse 0) (.cons (c3Link0 parse 0)
        (.cons (c3Link1 parse 0) .nil)))
      (by decide) (by decide) (by decide) (by decide) (by decide) rfl
  · exact c3Case parse _ [c3Chunk2, c3Chunk1, c3Chunk0]
      (.cons (c3Link2 parse 0) (.cons (c3Link1 parse 0)
        (.cons (c3Link0 parse 0) .nil)))
      (by decide) (by decide) (by decide) (by decide) (by decide) rfl

theorem C3_witness :
    (runRaw parseNone 0 emptyReassembler [c3Raw1, c3Raw0, c3Raw2]).2 =
      [none, none, none] ∧
    ((runRaw parseNone 0 emptyReassembler [c3Raw1, c3Raw0, c3Raw2]).1).cache "m1" =
      none :=
  (C3_amended parseNone).2.2.2 [c3Raw1, c3Raw0, c3Raw2] (by simp)

/-- C2 counterexample: from the initial listening state, two zero samples
followed by a single positive sample — a lone nonzero reading surrounded by
zeros — immediately flips the estimator to speaking, refuting the claim that
a single nonzero sample never causes the listening-to-speaking transition. -/
theorem C2_counterexample :
    (runVad vadInit [0, 0, 5]).isAgentSpeaking = true ∧
    (runVad vadInit [0, 0]).isAgentSpeaking = false := by decide

/-- C2 (amended): the estimator starts in listening; any nonzero sample left
in the window keeps it speaking, so a single zero sample surrounded by
nonzero samples never causes speaking-to-listening; but the rise has no
hysteresis: as soon as the window holds at least 2 samples, any positive
sample (even a single one surrounded by zeros) flips listening to speaking;
and speaking flips to listening exactly when every sample of the current
window (which holds up to 3 samples, not 2) is zero. -/
theorem C2_amended :
    vadInit.isAgentSpeaking = false ∧
    (∀ (s : VadState) (v : ℚ), s.isAgentSpeaking = true →
        (∃ x ∈ vadWindowNext s v, x ≠ 0) →
        (vadStep s v).isAgentSpeaking = true) ∧
    (∀ (s : VadState) (v : ℚ), s.isAgentSpeaking = true →
        2 ≤ (vadWindowNext s v).length →
        (∀ x ∈ vadWindowNext s v, x = 0) →
        (vadStep s v).isAgentSpeaking = false) ∧
    (∀ (s : VadState) (v : ℚ), s.isAgentSpeaking = false →
        2 ≤ (vadWindowNext s v).length →
        (∃ x ∈ vadWindowNext s v, 0 < x) →
        (vadStep s v).isAgentSpeaking = true) := by
  refine ⟨rfl, ?_, ?_, ?_⟩
  · intro s v hsp hex
    obtain ⟨x, hx, hxne⟩ := hex
    have hall : (vadWindowNext s v).all (fun y => y == 0) = false := by
      rw [List.all_eq_false]
      exact ⟨x, hx, by simpa using hxne⟩
    simp [vadStep, hsp, hall]
  · intro s v hsp hlen hall
    have h2 : decide (2 ≤ (vadWindowNext s v).length) = true := by
      simpa using hlen
    have ha : (vadWindowNext s v).all (fun y => y == 0) = true := by
      rw [List.all_eq_true]
      intro x hx
      simpa using hall x hx
    simp [vadStep, hsp, h2, ha]
  · intro s v hsp hlen hex
    obtain ⟨x, hx, hxpos⟩ := hex
    have h2 : decide (2 ≤ (vadWindowNext s v).length) = true := by
      simpa using hlen
    have ha : (vadWindowNext s v).any (fun y => decide (0 < y)) = true := by
      rw [List.any_eq_true]
      exact ⟨x, hx, by simpa using hxpos⟩
    simp [vadStep, hsp, h2, ha]

theorem C2_witness :
    (vadStep ⟨[3, 0], true⟩ 0).isAgentSpeaking = true ∧
    (vadStep ⟨[0], true⟩ 0).isAgentSpeaking = false ∧
    (vadStep ⟨[0], false⟩ 5).isAgentSpeaking = true :=
  ⟨C2_amended.2.1 ⟨[3, 0], true⟩ 0 rfl ⟨3, by decide, by decide⟩,
    C2_amended.2.2.1 ⟨[0], true⟩ 0 rfl (by decide) (by decide),
    C2_amended.2.2.2 ⟨[0], false⟩ 5 rfl (by decide) ⟨5, by decide, by decide⟩⟩

/-- All turn ids handed out so far are strictly below the counter, in the
finalized list as well as in the in-progress slot. -/
def dispatchInvariant (s : DispatchState) : Prop :=
  (∀ m ∈ s.messageList, m.turn_id < s.turnIdCounter) ∧
  (∀ m, s.currentInProgressMessage = some m → m.turn_id < s.turnIdCounter)

/-- C7: dispatching a final record with non-whitespace text appends exactly
one finalized message carrying the next turn id — strictly greater than every
turn id previously assigned to a finalized or in-progress message — clears
the in-progress slot, advances the counter, and leaves all previously
appended messages untouched (the new list is the old list plus one element),
preserving the invariant. -/
theorem C7_final_dispatch (s : DispatchState) (m : TenMessage)
    (htext : ¬ strTrim m.text = "") (hfin : m.is_final = true)
    (hinv : dispatchInvariant s) :
    ∃ newMsg : IMessageListItem,
      (handleTenMessage s m).messageList = s.messageList ++ [newMsg] ∧
      newMsg.turn_id = s.turnIdCounter ∧
      (∀ m' ∈ s.messageList, m'.turn_id < newMsg.turn_id) ∧
      (∀ m', s.currentInProgressMessage = some m' →
        m'.turn_id < newMsg.turn_id) ∧
      (handleTenMessage s m).currentInProgressMessage = none ∧
      (handleTenMessage s m).turnIdCounter = s.turnIdCounter + 1 ∧
      dispatchInvariant (handleTenMessage s m) := by
  have hstate : handleTenMessage s m =
      ⟨s.turnIdCounter + 1,
        s.messageList ++
          [⟨s.turnIdCounter, if m.role = some "assistant" then 0 else 1,
            m.text, 1, m.text_ts⟩],
        none⟩ := by
    simp [handleTenMessage, htext, hfin]
  refine ⟨⟨s.turnIdCounter, if m.role = some "assistant" then 0 else 1,
    m.text, 1, m.text_ts⟩, ?_, rfl, ?_, ?_, ?_, ?_, ?_⟩
  · rw [hstate]
  · exact fun m' hm' => hinv.1 m' hm'
  · exact fun m' hm' => hinv.2 m' hm'
  · rw [hstate]
  · rw [hstate]
  · rw [hstate]
    constructor
    · intro m' hm'
      simp only [List.mem_append, List.mem_singleton] at hm'
      rcases hm' with h | h
      · exact Nat.lt_succ_of_lt (hinv.1 m' h)
      · subst h
        exact Nat.lt_succ_self _
    · intro m' hm'
      simp at hm'

def c7State : DispatchState :=
  ⟨2, [⟨0, 0, "a", 1, 0⟩, ⟨1, 1, "b", 1, 0⟩], some ⟨1, 1, "c", 0, 0⟩⟩

def c7Record : TenMessage := ⟨"sid", true, "hello", 7, "transcribe", some "assistant"⟩

theorem C7_witness :
    ∃ newMsg : IMessageListItem,
      (handleTenMessage c7State c7Record).messageList =
        c7State.messageList ++ [newMsg] ∧
      newMsg.turn_id = c7State.turnIdCounter ∧
      (∀ m' ∈ c7State.messageList, m'.turn_id < newMsg.turn_id) ∧
      (∀ m', c7State.currentInProgressMessage = some m' →
        m'.turn_id < newMsg.turn_id) ∧
      (handleTenMessage c7State c7Record).currentInProgressMessage = none ∧
      (handleTenMessage c7State c7Record).turnIdCounter =
        c7State.turnIdCounter + 1 ∧
      dispatchInvariant (handleTenMessage c7State c7Record) :=
  C7_final_dispatch c7State c7Record (by decide) rfl
    ⟨by decide, by intro m' h; cases h; decide⟩

/-- C8: dispatching a record whose text is empty or whitespace-only is a
complete no-op: the dispatcher state — finalized list, in-progress slot and
turn counter alike — is exactly unchanged. -/
theorem C8_empty_text_noop (s : DispatchState) (m : TenMessage)
    (h : strTrim m.text = "") : handleTenMessage s m = s := by
  simp [handleTenMessage, h]

theorem C8_witness :
    handleTenMessage ⟨5, [], none⟩ ⟨"s", true, "   ", 0, "t", none⟩ =
      ⟨5, [], none⟩ :=
  C8_empty_text_noop ⟨5, [], none⟩ ⟨"s", true, "   ", 0, "t", none⟩ (by decide)

/-- Sanity of a visualizer configuration; the defaults satisfy it. -/
def vizSane (o : VizOptions) : Prop :=
  0 ≤ o.amplification ∧ o.threshold < 1 ∧ 0 < o.barCount ∧
  0 ≤ o.volumeDecay ∧ o.volumeDecay ≤ 1 ∧ 0 ≤ o.attackRate ∧ o.attackRate ≤ 1

/-- The state invariant of the visualizer: the smoothed volume stays in
[0, 1] and the lit count in [0, barCount]. -/
def vizInv (o : VizOptions) (s : VizState) : Prop :=
  0 ≤ s.smoothedVolume ∧ s.smoothedVolume ≤ 1 ∧
  0 ≤ s.currentLitCount ∧ s.currentLitCount ≤ o.barCount

theorem rawVolumeOf_bounds (o : VizOptions) (ho : vizSane o) (av : ℚ)
    (hav : 0 ≤ av) : 0 ≤ rawVolumeOf o av ∧ rawVolumeOf o av ≤ 1 := by
  obtain ⟨hamp, hth, -, -, -, -, -⟩ := ho
  unfold rawVolumeOf
  dsimp only
  set r := min 1 (av / 255 * o.amplification) with hr
  have hr0 : 0 ≤ r := le_min (by norm_num) (by positivity)
  have hr1 : r ≤ 1 := min_le_left _ _
  split
  · exact ⟨le_refl 0, by norm_num⟩
  · rename_i hge
    push_neg at hge
    constructor
    · apply div_nonneg (by linarith) (by linarith)
    · rw [div_le_one (by linarith)]
      linarith

theorem smoothedVolumeNext_bounds (o : VizOptions) (ho : vizSane o)
    (s : VizState) (av : ℚ) (hs0 : 0 ≤ s.smoothedVolume)
    (hs1 : s.smoothedVolume ≤ 1) (hav : 0 ≤ av) :
    0 ≤ smoothedVolumeNext o s av ∧ smoothedVolumeNext o s av ≤ 1 := by
  obtain ⟨hraw0, hraw1⟩ := rawVolumeOf_bounds o ho av hav
  obtain ⟨-, -, -, hd0, hd1, -, -⟩ := ho
  unfold smoothedVolumeNext
  dsimp only
  split
  · exact ⟨hraw0, hraw1⟩
  · constructor
    · exact mul_nonneg hs0 hd0
    · calc s.smoothedVolume * o.volumeDecay ≤ 1 * 1 :=
            mul_le_mul hs1 hd1 hd0 (by norm_num)
        _ = 1 := by norm_num

theorem targetLitCount_bounds (o : VizOptions) (ho : vizSane o)
    (s : VizState) (av : ℚ) (hs0 : 0 ≤ s.smoothedVolume)
    (hs1 : s.smoothedVolume ≤ 1) (hav : 0 ≤ av) :
    0 ≤ targetLitCount o s av ∧ targetLitCount o s av ≤ o.barCount := by
  obtain ⟨h0, h1⟩ := smoothedVolumeNext_bounds o ho s av hs0 hs1 hav
  have hbar : 0 < o.barCount := ho.2.2.1
  unfold targetLitCount
  constructor
  · exact mul_nonneg h0 (le_of_lt hbar)
  · calc smoothedVolumeNext o s av * o.barCount ≤ 1 * o.barCount :=
        mul_le_mul_of_nonneg_right h1 (le_of_lt hbar)
      _ = o.barCount := by norm_num

/-- Attack tick: when the target lit count is strictly above the current one,
the lit count does not decrease and does not pass the target (hence stays at
or below barCount). -/
theorem vizStep_attack (o : VizOptions) (ho : vizSane o) (s : VizState)
    (av : ℚ) (hinv : vizInv o s) (hav : 0 ≤ av)
    (h : targetLitCount o s av > s.currentLitCount) :
    s.currentLitCount ≤ (vizStep o s av).currentLitCount ∧
    (vizStep o s av).currentLitCount ≤ o.barCount := by
  obtain ⟨hs0, hs1, hl0, hl1⟩ := hinv
  obtain ⟨-, htar⟩ := targetLitCount_bounds o ho s av hs0 hs1 hav
  obtain ⟨-, -, -, -, -, ha0, ha1⟩ := ho
  unfold vizStep
  dsimp only
  rw [if_pos h]
  constructor
  · have : 0 ≤ (targetLitCount o s av - s.currentLitCount) * o.attackRate :=
      mul_nonneg (by linarith) ha0
    simpa using by linarith
  · have hstep : (targetLitCount o s av - s.currentLitCount) * o.attackRate ≤
        (targetLitCount o s av - s.currentLitCount) * 1 :=
      mul_le_mul_of_nonneg_left ha1 (by linarith)
    simpa using by linarith

/-- Decay tick: when the target is not above the current lit count, the lit
count does not increase and stays nonnegative. -/
theorem vizStep_decay (o : VizOptions) (ho : vizSane o) (s : VizState)
    (av : ℚ) (hl0 : 0 ≤ s.currentLitCount)
    (h : ¬ targetLitCount o s av > s.currentLitCount) :
    (vizStep o s av).currentLitCount ≤ s.currentLitCount ∧
    0 ≤ (vizStep o s av).currentLitCount := by
  obtain ⟨-, -, -, hd0, hd1, -, -⟩ := ho
  unfold vizStep
  dsimp only
  rw [if_neg h]
  constructor
  · simpa using mul_le_of_le_one_right hl0 hd1
  · simpa using mul_nonneg hl0 hd0

theorem vizStep_inv (o : VizOptions) (ho : vizSane o) (s : VizState)
    (av : ℚ) (hinv : vizInv o s) (hav : 0 ≤ av) :
    vizInv o (vizStep o s av) := by
  obtain ⟨hs0, hs1, hl0, hl1⟩ := hinv
  obtain ⟨hsv0, hsv1⟩ := smoothedVolumeNext_bounds o ho s av hs0 hs1 hav
  have hsv : (vizStep o s av).smoothedVolume = smoothedVolumeNext o s av := by
    unfold vizStep
    dsimp only
  by_cases h : targetLitCount o s av > s.currentLitCount
  · obtain ⟨h1, h2⟩ := vizStep_attack o ho s av ⟨hs0, hs1, hl0, hl1⟩ hav h
    exact ⟨by rw [hsv]; exact hsv0, by rw [hsv]; exact hsv1, le_trans hl0 h1, h2⟩
  · obtain ⟨h1, h2⟩ := vizStep_decay o ho s av hl0 h
    exact ⟨by rw [hsv]; exact hsv0, by rw [hsv]; exact hsv1, h2,
      le_trans h1 hl1⟩

theorem runViz_inv (o : VizOptions) (ho : vizSane o) :
    ∀ (avs : List ℚ) (s : VizState), vizInv o s → (∀ a ∈ avs, 0 ≤ a) →
      vizInv o (runViz o s avs) := by
  intro avs
  induction avs with
  | nil => intro s hi _; exact hi
  | cons a rest ih =>
      intro s hi hpos
      exact ih (vizStep o s a)
        (vizStep_inv o ho s a hi (hpos a (List.mem_cons_self a rest)))
        (fun b hb => hpos b (List.mem_cons_of_mem a hb))

/-- C6 (amended): for a sane configuration, (1) on every tick whose target
lit count is strictly above the current one the real-valued lit count does
not decrease and never exceeds barCount, (2) on every tick whose target is
strictly below the current one it does not increase and never drops below 0,
and (3) starting from the initial state 0 and fed any nonnegative average
volumes, litBars remains within [0, barCount] after every tick. -/
theorem C6_litbars_monotone (o : VizOptions) (ho : vizSane o) :
    (∀ (s : VizState) (av : ℚ), vizInv o s → 0 ≤ av →
        targetLitCount o s av > s.currentLitCount →
        s.currentLitCount ≤ (vizStep o s av).currentLitCount ∧
        (vizStep o s av).currentLitCount ≤ o.barCount) ∧
    (∀ (s : VizState) (av : ℚ), 0 ≤ s.currentLitCount →
        targetLitCount o s av < s.currentLitCount →
        (vizStep o s av).currentLitCount ≤ s.currentLitCount ∧
        0 ≤ (vizStep o s av).currentLitCount) ∧
    (∀ avs : List ℚ, (∀ a ∈ avs, 0 ≤ a) →
        0 ≤ (runViz o vizInit avs).currentLitCount ∧
        (runViz o vizInit avs).currentLitCount ≤ o.barCount) := by
  refine ⟨?_, ?_, ?_⟩
  · intro s av hinv hav h
    exact vizStep_attack o ho s av hinv hav h
  · intro s av hl0 h
    exact vizStep_decay o ho s av hl0 (by linarith)
  · intro avs hpos
    have hinit : vizInv o vizInit := by
      refine ⟨by norm_num [vizInit], by norm_num [vizInit],
        by norm_num [vizInit], ?_⟩
      have hb := ho.2.2.1
      simp only [vizInit]
      linarith
    obtain ⟨-, -, h1, h2⟩ := runViz_inv o ho avs vizInit hinit hpos
    exact ⟨h1, h2⟩

theorem C6_witness :
    (vizInit.currentLitCount ≤
        (vizStep defaultVizOptions vizInit 255).currentLitCount ∧
      (vizStep defaultVizOptions vizInit 255).currentLitCount ≤
        defaultVizOptions.barCount) ∧
    (0 ≤ (runViz defaultVizOptions vizInit [255, 0]).currentLitCount ∧
      (runViz defaultVizOptions vizInit [255, 0]).currentLitCount ≤
        defaultVizOptions.barCount) :=
  have hsane : vizSane defaultVizOptions := by
    norm_num [vizSane, defaultVizOptions]
  ⟨(C6_litbars_monotone defaultVizOptions hsane).1 vizInit 255
      (by norm_num [vizInv, vizInit, defaultVizOptions]) (by norm_num)
      (by norm_num [targetLitCount, smoothedVolumeNext, rawVolumeOf,
        vizInit, defaultVizOptions, min_def]),
    (C6_litbars_monotone defaultVizOptions hsane).2.2 [255, 0]
      (by intro a ha; simp at ha; rcases ha with h | h <;> norm_num [h])⟩

def c6Av7 : ℚ := 175718818683 / 3328000000

def c6Inputs : List ℚ := [255, 0, 0, 0, 0, 0, c6Av7]

def c6State : VizState := runViz defaultVizOptions vizInit c6Inputs

/-- C6 counterexample: the state c6State is reached from the initial state by
seven nonnegative inputs; at the next tick (input 0) the target lit count is
exactly EQUAL to the current lit count — so the tick belongs to an attack
phase under the claim's "at or above" definition — yet the real-valued lit
count strictly decreases (the code decays on ties).  Hence the claim as
stated, with attack phases delimited by "target at or above current", is
false. -/
theorem C6_counterexample :
    targetLitCount defaultVizOptions c6State 0 = c6State.currentLitCount ∧
    0 < c6State.currentLitCount ∧
    (vizStep defaultVizOptions c6State 0).currentLitCount <
      c6State.currentLitCount := by
  have h : c6State = ⟨165968649 / 208000000, 9460212993 / 520000000⟩ := by
    norm_num [c6State, c6Inputs, c6Av7, runViz, vizStep, targetLitCount,
      smoothedVolumeNext, rawVolumeOf, defaultVizOptions, vizInit, min_def]
  rw [h]
  refine ⟨?_, by norm_num, ?_⟩
  · norm_num [targetLitCount, smoothedVolumeNext, rawVolumeOf,
      defaultVizOptions, min_def]
  · norm_num [vizStep, targetLitCount, smoothedVolumeNext, rawVolumeOf,
      defaultVizOptions, min_def]

end AiTherapist
